import Mathlib

/-!
Verification of the mssh host-resolution core (`main.go`).

The embedding below translates the Go source directly:
* Go strings are Lean `String`s (paths, indexed by bytes in Go, are
  modelled as `List Char`; the inputs of interest are ASCII).
* The Go regexp library is not part of this repository, so regex
  compilation and matching are abstracted as parameters:
  `valid : String → Bool` models whether `regexp.MustCompile` succeeds
  on a pattern, `m : String → String → Bool` models the compiled
  pattern's unanchored `MatchString`.  A `MustCompile` panic (a fatal
  abort of the run) is modelled as the `none` result.
* Go maps are modelled as association lists with `List.lookup`
  (first binding wins, which matches the write-if-absent discipline
  of `conf.merge`).
-/

/-- `hostConf` from `main.go`: one configured host record. -/
structure HostConf where
  Via : String
  Hostname : String
  GatewayCommand : String
  deriving DecidableEq, Repr

/-- `strings.HasPrefix(k, p)`: `p` is a prefix of `k`, decided on the
character lists underlying the two strings. -/
def strHasPrefix (k p : String) : Bool :=
  List.isPrefixOf p.data k.data

/-- `filter(elems, f, re)` from `main.go` lines 141–155.
`regexp.MustCompile(f)` runs first, for every mode; its panic is the
`none` result.  The loop skips names beginning with `_`, then keeps a
name when (`!re` and `f == k`) or (`re` and the compiled regex matches
`k`); for a fixed `re` these two branches amount to
`if re then m f k else f == k`. -/
def filter (valid : String → Bool) (m : String → String → Bool)
    (elems : List String) (f : String) (re : Bool) : Option (List String) :=
  if valid f then
    some (List.filter
      (fun k => !strHasPrefix k "_" && (if re then m f k else f == k)) elems)
  else
    none

/-- The `for _, f := range filters` loop of `getTargets` (`main.go`
lines 166–175), threading the `all` and `targets` slices.  Inside the
loop the switch has exactly the cases `"AND"` (narrow `all` to the
matches) and `"OR"` (append the matches to `targets`); the loop is only
reached with `op` equal to one of the two, so the non-`"AND"` branch is
the `"OR"` case. -/
def getTargetsLoop (valid : String → Bool) (m : String → String → Bool)
    (op : String) (re : Bool) :
    List String → List String → List String → Option (List String × List String)
  | all, targets, [] => some (all, targets)
  | all, targets, f :: fs =>
    match filter valid m all f re with
    | none => none
    | some matched =>
      if op = "AND" then getTargetsLoop valid m op re matched targets fs
      else getTargetsLoop valid m op re all (targets ++ matched) fs

/-- `getTargets(hosts, filters, op, re)` from `main.go` lines 157–180:
any `op` other than `"AND"`/`"OR"` returns the nil slice at once; the
loop above runs over the filters; in `"AND"` mode the final result is
the surviving working set `all`, in `"OR"` mode the accumulated
`targets`.  `none` models the fatal `MustCompile` panic. -/
def getTargets (valid : String → Bool) (m : String → String → Bool)
    (hosts filters : List String) (op : String) (re : Bool) :
    Option (List String) :=
  if op = "AND" ∨ op = "OR" then
    match getTargetsLoop valid m op re hosts [] filters with
    | none => none
    | some (all, targets) => some (if op = "AND" then all else targets)
  else
    some []

example :
    getTargets (fun _ => true) (fun _ _ => true) ["_tpl"] [] "AND" true
      = some ["_tpl"] := by decide

example :
    getTargets (fun _ => true) (fun _ _ => true) ["a"] ["a", "a"] "OR" false
      = some ["a", "a"] := by decide

example :
    getTargets (fun _ => true) (fun f k => f = "web.*" && strHasPrefix k "web")
      ["web1", "web2", "_tpl"] ["web.*"] "AND" true
      = some ["web1", "web2"] := by decide

/-- A successful `filter` call returns a sublist of its input. -/
theorem filter_some_sublist {valid : String → Bool} {m : String → String → Bool}
    {elems : List String} {f : String} {re : Bool} {l : List String}
    (h : filter valid m elems f re = some l) : l.Sublist elems := by
  unfold filter at h
  split at h
  · cases h
    exact List.filter_sublist _
  · cases h

/-- Every name returned by a successful `filter` call came from the input
and does not begin with `_`. -/
theorem filter_some_mem {valid : String → Bool} {m : String → String → Bool}
    {elems : List String} {f : String} {re : Bool} {l : List String}
    (h : filter valid m elems f re = some l) :
    ∀ x ∈ l, x ∈ elems ∧ strHasPrefix x "_" = false := by
  unfold filter at h
  split at h
  · cases h
    intro x hx
    have hm := List.mem_filter.mp hx
    refine ⟨hm.1, ?_⟩
    have hb := hm.2
    simp only [Bool.and_eq_true, Bool.not_eq_true'] at hb
    exact hb.1
  · cases h

/-- In `"AND"` mode the loop only narrows the working set and never
touches the `targets` accumulator. -/
theorem getTargetsLoop_and_sub {valid : String → Bool} {m : String → String → Bool}
    {re : Bool} :
    ∀ (fs all tg all2 tg2 : List String),
      getTargetsLoop valid m "AND" re all tg fs = some (all2, tg2) →
      all2.Sublist all ∧ tg2 = tg := by
  intro fs
  induction fs with
  | nil =>
    intro all tg all2 tg2 h
    simp only [getTargetsLoop, Option.some.injEq, Prod.mk.injEq] at h
    exact ⟨h.1 ▸ List.Sublist.refl _, h.2.symm⟩
  | cons f fs ih =>
    intro all tg all2 tg2 h
    rw [getTargetsLoop] at h
    split at h
    · cases h
    · rename_i matched hf
      split at h
      · obtain ⟨hsub, htg⟩ := ih matched tg all2 tg2 h
        exact ⟨hsub.trans (filter_some_sublist hf), htg⟩
      · rename_i hcontra
        exact absurd rfl hcontra

/-- In `"AND"` mode with at least one filter, the final working set came
out of the last `filter` call, so none of its names begins with `_`. -/
theorem getTargetsLoop_and_clean {valid : String → Bool} {m : String → String → Bool}
    {re : Bool} :
    ∀ (fs all tg all2 tg2 : List String), fs ≠ [] →
      getTargetsLoop valid m "AND" re all tg fs = some (all2, tg2) →
      ∀ x ∈ all2, strHasPrefix x "_" = false := by
  intro fs
  induction fs with
  | nil => intro _ _ _ _ hne _; exact absurd rfl hne
  | cons f fs ih =>
    intro all tg all2 tg2 _ h x hx
    rw [getTargetsLoop] at h
    split at h
    · cases h
    · rename_i matched hf
      split at h
      · cases fs with
        | nil =>
          simp only [getTargetsLoop, Option.some.injEq, Prod.mk.injEq] at h
          exact (filter_some_mem hf x (h.1 ▸ hx)).2
        | cons f2 fs2 =>
          exact ih matched tg all2 tg2 (by simp) h x hx
      · rename_i hcontra
        exact absurd rfl hcontra

/-- In `"OR"` mode (any `op` other than `"AND"`) the loop keeps the
working set equal to the original candidate list and only appends
filter results to the accumulator. -/
theorem getTargetsLoop_or_spec {valid : String → Bool} {m : String → String → Bool}
    {re : Bool} {op : String} (hop : ¬op = "AND") :
    ∀ (fs all tg all2 tg2 : List String),
      getTargetsLoop valid m op re all tg fs = some (all2, tg2) →
      all2 = all ∧ ∀ x ∈ tg2, x ∈ tg ∨ (x ∈ all ∧ strHasPrefix x "_" = false) := by
  intro fs
  induction fs with
  | nil =>
    intro all tg all2 tg2 h
    simp only [getTargetsLoop, Option.some.injEq, Prod.mk.injEq] at h
    exact ⟨h.1.symm, fun x hx => Or.inl (h.2 ▸ hx)⟩
  | cons f fs ih =>
    intro all tg all2 tg2 h
    rw [getTargetsLoop] at h
    split at h
    · cases h
    · rename_i matched hf
      rw [if_neg hop] at h
      obtain ⟨h1, h2⟩ := ih all (tg ++ matched) all2 tg2 h
      refine ⟨h1, fun x hx => ?_⟩
      rcases h2 x hx with hmem | hclean
      · rcases List.mem_append.mp hmem with hl | hr
        · exact Or.inl hl
        · exact Or.inr (filter_some_mem hf x hr)
      · exact Or.inr hclean

/-- C1, counterexample: with the empty filter list in `"AND"` mode,
`getTargets` returns the candidate list unchanged — the underscore
exclusion lives inside `filter`, which is never invoked — so the
`_`-prefixed candidate `"_tpl"` appears in the resolved target
sequence, contrary to the claim's "including the empty list". -/
theorem C1_counterexample :
    getTargets (fun _ => true) (fun _ _ => true) ["_tpl"] [] "AND" true
        = some ["_tpl"]
      ∧ strHasPrefix "_tpl" "_" = true := by
  exact ⟨rfl, rfl⟩

/-- C1 (amended): for every candidate name set, every composition mode
and every matching mode, whenever the filter list is non-empty or the
composition mode is `"OR"`, no name beginning with `_` appears in the
resolved target sequence returned by `getTargets`. -/
theorem C1_no_underscore_in_targets
    (valid : String → Bool) (m : String → String → Bool)
    (hosts filters : List String) (op : String) (re : Bool)
    (ts : List String) (x : String)
    (hmode : filters ≠ [] ∨ op = "OR")
    (hres : getTargets valid m hosts filters op re = some ts)
    (hx : x ∈ ts) :
    strHasPrefix x "_" = false := by
  unfold getTargets at hres
  split at hres
  · split at hres
    · cases hres
    · rename_i all2 tg2 hloop
      injection hres with hres
      subst hres
      by_cases hand : op = "AND"
      · rw [if_pos hand] at hx
        subst hand
        have hne : filters ≠ [] := by
          rcases hmode with h | h
          · exact h
          · exact absurd h (by decide)
        exact getTargetsLoop_and_clean filters hosts [] all2 tg2 hne hloop x hx
      · rw [if_neg hand] at hx
        obtain ⟨-, h2⟩ := getTargetsLoop_or_spec hand filters hosts [] all2 tg2 hloop
        rcases h2 x hx with habs | hgood
        · cases habs
        · exact hgood.2
  · injection hres with hres
    subst hres
    cases hx

/-- C1 witness: instantiating the amended theorem at a concrete input. -/
theorem C1_no_underscore_in_targets_witness :
    ((["b"] : List String) ≠ [] ∨ "AND" = "OR")
      ∧ getTargets (fun _ => true) (fun _ _ => false) ["_a", "b"] ["b"] "AND" false
          = some ["b"]
      ∧ "b" ∈ (["b"] : List String)
      ∧ strHasPrefix "b" "_" = false := by
  refine ⟨Or.inl (by decide), by decide, by decide, ?_⟩
  exact C1_no_underscore_in_targets (fun _ => true) (fun _ _ => false)
    ["_a", "b"] ["b"] "AND" false ["b"] "b"
    (Or.inl (by decide)) (by decide) (by decide)

/-- C2, counterexample: `"AND"` mode with the empty filter list returns
the candidate list verbatim, so a `_`-prefixed candidate stays in the
result — the claim's parenthetical "(non-underscore-prefixed)" does not
hold for the code. -/
theorem C2_counterexample :
    getTargets (fun _ => true) (fun _ _ => true) ["_x"] [] "AND" true
        = some ["_x"]
      ∧ strHasPrefix "_x" "_" = true := by
  exact ⟨rfl, rfl⟩

/-- C2 (amended): for every candidate name set, `getTargets` with an
empty filter list returns the candidate list unchanged — including any
`_`-prefixed names — in `"AND"` mode, and the empty list in `"OR"`
mode. -/
theorem C2_empty_filters
    (valid : String → Bool) (m : String → String → Bool)
    (hosts : List String) (re : Bool) :
    getTargets valid m hosts [] "AND" re = some hosts
      ∧ getTargets valid m hosts [] "OR" re = some [] := by
  constructor <;> simp [getTargets, getTargetsLoop]

/-- `sort.Strings(hosts)` from `main.go` line 205: sorting the resolved
names ascending.  `sort.Strings` is a library comparison sort; on a
linearly ordered element type its result is determined by sortedness
and permutation, so it is modelled by insertion sort over `≤`. -/
def sortStrings (l : List String) : List String :=
  List.insertionSort (fun a b => a ≤ b) l

example : sortStrings ["a", "a"] = ["a", "a"] := by
  show List.orderedInsert _ "a" ["a"] = ["a", "a"]
  simp [List.orderedInsert]

/-- C3, counterexample: `"OR"` composition does not deduplicate — two
filters both matching `"a"` put it in the accumulated targets twice,
and `sort.Strings` only sorts — so the launched sequence `["a", "a"]`
has a duplicate name. -/
theorem C3_counterexample :
    getTargets (fun _ => true) (fun _ _ => true) ["a"] ["a", "a"] "OR" false
        = some ["a", "a"]
      ∧ sortStrings ["a", "a"] = ["a", "a"]
      ∧ ¬ (["a", "a"] : List String).Nodup := by
  refine ⟨by decide, ?_, by decide⟩
  show List.orderedInsert _ "a" ["a"] = ["a", "a"]
  simp [List.orderedInsert]

/-- C3 (amended): the resolved target sequence as produced for launch is
always sorted lexicographically ascending; it contains no duplicates in
`"AND"` mode whenever the candidate names are distinct, but `"OR"`
composition can retain duplicates when its filters match overlapping
subsets. -/
theorem C3_sorted_and_nodup
    (valid : String → Bool) (m : String → String → Bool)
    (hosts filters : List String) (op : String) (re : Bool) (ts : List String)
    (hres : getTargets valid m hosts filters op re = some ts) :
    List.Sorted (fun a b => a ≤ b) (sortStrings ts)
      ∧ (op = "AND" → hosts.Nodup → (sortStrings ts).Nodup) := by
  constructor
  · exact List.sorted_insertionSort _ ts
  · intro hand hnd
    subst hand
    unfold getTargets at hres
    rw [if_pos (Or.inl rfl)] at hres
    split at hres
    · cases hres
    · rename_i all2 tg2 hloop
      injection hres with hres
      rw [if_pos rfl] at hres
      subst hres
      have hsub := (getTargetsLoop_and_sub filters hosts [] all2 tg2 hloop).1
      exact ((List.perm_insertionSort (fun a b => a ≤ b) all2).symm).nodup
        (hsub.nodup hnd)

/-- C3 witness: instantiating the amended theorem at a concrete input. -/
theorem C3_sorted_and_nodup_witness :
    getTargets (fun _ => true) (fun _ _ => false) ["b", "a"] ["a"] "AND" false
        = some ["a"]
      ∧ (List.Sorted (fun a b : String => a ≤ b) (sortStrings ["a"])
          ∧ ("AND" = "AND" → (["b", "a"] : List String).Nodup
              → (sortStrings ["a"]).Nodup)) := by
  refine ⟨by decide, ?_⟩
  exact C3_sorted_and_nodup (fun _ => true) (fun _ _ => false)
    ["b", "a"] ["a"] "AND" false ["a"] (by decide)

/-- The candidate-list construction of `main` (`main.go` lines 199–202):
`cands := make([]string, len(c.Hosts))` allocates a slice whose LENGTH
is the number of hosts (zero-valued entries, i.e. empty strings), and
the subsequent `append` in the range loop adds the host names after
them, so the candidate list is `len(keys)` empty strings followed by
the keys. -/
def mainCands (keys : List String) : List String :=
  List.replicate keys.length "" ++ keys

/-- C4: the resolved targets are NOT always a subset of the merged
configuration's keys.  With one configured host `"web1"` and the regex
filter `".*"` (modelled by its compiled behavior: it matches every
string, including the empty one), resolution over `main`'s candidate
list returns the padding empty string `""` as a target, and `""` is not
a key of the host mapping.  The intent of `make([]string, len(c.Hosts))`
followed by `append` was evidently a capacity, not a length — the code
is a slip against the spec's subset invariant. -/
theorem C4_empty_string_target :
    getTargets (fun _ => true) (fun _ _ => true) (mainCands ["web1"]) [".*"]
        "AND" true
        = some ["", "web1"]
      ∧ "" ∉ (["web1"] : List String) := by
  exact ⟨by decide, by decide⟩

/-- A configuration document once parsed: its own `hosts` mapping (as an
association list of the YAML map) and, in listed order, the documents
its `include` paths resolve to.  Modelling includes as subtrees rather
than paths folds the file reads of `loadConf` into the structure; a
failing read aborts the whole load in the source, so only successful
loads are represented. -/
inductive Doc where
  | mk : List (String × HostConf) → List Doc → Doc

/-- The host mapping a document declares itself. -/
def Doc.hosts : Doc → List (String × HostConf)
  | .mk hs _ => hs

/-- The documents included by a document, in listed order. -/
def Doc.includes : Doc → List Doc
  | .mk _ incs => incs

/-- `(c *conf) merge(other)` from `main.go` lines 57–65: every host of
`other` is added to `c` only when its name is not yet bound; a bound
name is ignored (with a non-fatal informational log).  On association
lists: fold over `other`, appending a binding only when `List.lookup`
misses. -/
def mergeHosts (c other : List (String × HostConf)) : List (String × HostConf) :=
  other.foldl
    (fun acc kv => if (List.lookup kv.1 acc).isSome then acc else acc ++ [kv]) c

mutual

/-- `loadConf(path)` from `main.go` lines 39–55, on the document tree:
start from the document's own hosts, then for each include in listed
order recursively load it and `merge` it in. -/
def loadConf : Doc → List (String × HostConf)
  | .mk hs incs => loadIncludes hs incs

/-- The `for _, p := range v.Includes` loop of `loadConf`. -/
def loadIncludes : List (String × HostConf) → List Doc → List (String × HostConf)
  | acc, [] => acc
  | acc, d :: ds => loadIncludes (mergeHosts acc (loadConf d)) ds

end

example :
    loadConf (.mk [("a", ⟨"", "", ""⟩)]
      [.mk [("a", ⟨"x", "", ""⟩), ("b", ⟨"y", "", ""⟩)] []])
      = [("a", ⟨"", "", ""⟩), ("b", ⟨"y", "", ""⟩)] := by
  simp [loadConf, loadIncludes, mergeHosts, List.lookup]

/-- First-write-wins choice on optional host records: keep the left
(already accepted) binding when present. -/
def orFirst (a b : Option HostConf) : Option HostConf :=
  match a with
  | some v => some v
  | none => b

/-- The first `some` in a list of optional records, earlier entries
taking precedence. -/
def firstHit : List (Option HostConf) → Option HostConf
  | [] => none
  | o :: os => orFirst o (firstHit os)

theorem orFirst_some (v : HostConf) (b : Option HostConf) :
    orFirst (some v) b = some v := rfl

theorem orFirst_none (b : Option HostConf) : orFirst none b = b := rfl

theorem orFirst_none_right (a : Option HostConf) : orFirst a none = a := by
  cases a <;> rfl

theorem orFirst_assoc (a b c : Option HostConf) :
    orFirst (orFirst a b) c = orFirst a (orFirst b c) := by
  cases a <;> rfl

theorem firstHit_cons (o : Option HostConf) (os : List (Option HostConf)) :
    firstHit (o :: os) = orFirst o (firstHit os) := rfl

theorem lookup_append (k : String) (a b : List (String × HostConf)) :
    List.lookup k (a ++ b) = orFirst (List.lookup k a) (List.lookup k b) := by
  induction a with
  | nil => simp [List.lookup, orFirst]
  | cons kv rest ih =>
    obtain ⟨k2, v⟩ := kv
    simp only [List.cons_append, List.lookup]
    cases h : (k == k2)
    · simpa [h] using ih
    · simp [h, orFirst]

/-- `conf.merge` on association lists realizes first-write-wins lookup:
a key found in the base is kept, otherwise the incoming binding (its
first occurrence) is visible. -/
theorem lookup_mergeHosts (k : String) (other c : List (String × HostConf)) :
    List.lookup k (mergeHosts c other)
      = orFirst (List.lookup k c) (List.lookup k other) := by
  induction other generalizing c with
  | nil =>
    simp only [mergeHosts, List.foldl_nil, List.lookup_nil, orFirst_none_right]
  | cons kv rest ih =>
    obtain ⟨k2, v⟩ := kv
    have hstep : mergeHosts c ((k2, v) :: rest)
        = mergeHosts (if (List.lookup k2 c).isSome then c else c ++ [(k2, v)]) rest := rfl
    rw [hstep, ih]
    by_cases hin : (List.lookup k2 c).isSome
    · rw [if_pos hin]
      by_cases hk : k = k2
      · subst hk
        obtain ⟨w, hw⟩ := Option.isSome_iff_exists.mp hin
        rw [hw, orFirst_some, orFirst_some]
      · have : List.lookup k ((k2, v) :: rest) = List.lookup k rest := by
          simp [List.lookup, beq_false_of_ne hk]
        rw [this]
    · rw [if_neg hin, lookup_append]
      by_cases hk : k = k2
      · subst hk
        have hc : List.lookup k c = none := Option.not_isSome_iff_eq_none.mp hin
        have h1 : List.lookup k [(k, v)] = some v := by simp [List.lookup]
        have h2 : List.lookup k ((k, v) :: rest) = some v := by simp [List.lookup]
        rw [hc, h1, h2, orFirst_none, orFirst_some]
      · have h1 : List.lookup k [(k2, v)] = none := by
          simp [List.lookup, beq_false_of_ne hk]
        have h2 : List.lookup k ((k2, v) :: rest) = List.lookup k rest := by
          simp [List.lookup, beq_false_of_ne hk]
        rw [h1, h2, orFirst_none_right]

/-- Lookup in a fully loaded document: the document's own binding first,
then the includes' bindings in listed order, each include itself
resolved recursively. -/
theorem loadIncludes_lookup (k : String) :
    ∀ (ds : List Doc) (acc : List (String × HostConf)),
      List.lookup k (loadIncludes acc ds)
        = orFirst (List.lookup k acc)
            (firstHit (ds.map (fun d => List.lookup k (loadConf d)))) := by
  intro ds
  induction ds with
  | nil =>
    intro acc
    simp [loadIncludes, firstHit, orFirst_none_right]
  | cons d rest ih =>
    intro acc
    have hstep : loadIncludes acc (d :: rest)
        = loadIncludes (mergeHosts acc (loadConf d)) rest := by
      rw [loadIncludes]
    rw [hstep, ih, lookup_mergeHosts, List.map_cons, firstHit_cons, orFirst_assoc]

/-- `loadConf` lookup, unfolded one document level. -/
theorem loadConf_lookup (k : String) (hs : List (String × HostConf))
    (incs : List Doc) :
    List.lookup k (loadConf (.mk hs incs))
      = orFirst (List.lookup k hs)
          (firstHit (incs.map (fun d => List.lookup k (loadConf d)))) := by
  rw [loadConf]
  exact loadIncludes_lookup k incs hs

theorem firstHit_prefix_none :
    ∀ (xs : List (Option HostConf)) (ys : List (Option HostConf)) (v : HostConf),
      (∀ x ∈ xs, x = none) →
      firstHit (xs ++ some v :: ys) = some v := by
  intro xs
  induction xs with
  | nil => intro ys v _; rfl
  | cons x rest ih =>
    intro ys v hall
    have hx : x = none := hall x (List.mem_cons_self x rest)
    subst hx
    exact ih ys v (fun x2 hx2 => hall x2 (List.mem_cons_of_mem _ hx2))

/-- C5: merge precedence of `loadConf` is first-write-wins in
declaration order.  (1) A host name bound directly in the document is
never overridden by any include: the document's own record survives.
(2) When the document itself does not bind the name and it is bound by
an include `d`, with every earlier-listed include not binding it, the
record of `d` (the earlier of any two includes binding the name) is
kept; the later duplicate is simply invisible to lookup, never an
error. -/
theorem C5_first_write_wins :
    (∀ (hs : List (String × HostConf)) (incs : List Doc) (k : String)
        (v : HostConf),
        List.lookup k hs = some v →
        List.lookup k (loadConf (.mk hs incs)) = some v)
      ∧ (∀ (hs : List (String × HostConf)) (pre post : List Doc) (d : Doc)
            (k : String) (v : HostConf),
          List.lookup k hs = none →
          (∀ d2 ∈ pre, List.lookup k (loadConf d2) = none) →
          List.lookup k (loadConf d) = some v →
          List.lookup k (loadConf (.mk hs (pre ++ d :: post))) = some v) := by
  constructor
  · intro hs incs k v h
    rw [loadConf_lookup, h, orFirst_some]
  · intro hs pre post d k v hnone hpre hd
    rw [loadConf_lookup, hnone, orFirst_none, List.map_append, List.map_cons, hd]
    refine firstHit_prefix_none _ _ v ?_
    intro x hx
    obtain ⟨d2, hd2, rfl⟩ := List.mem_map.mp hx
    exact hpre d2 hd2

/-- C5 witness: a document binding `"a"` itself keeps its own record
against an include that also binds `"a"`; for `"b"`, bound by both
includes but not by the document, the first include's record wins. -/
theorem C5_first_write_wins_witness :
    (List.lookup "a" [("a", HostConf.mk "1" "" "")] = some (HostConf.mk "1" "" ""))
      ∧ List.lookup "a"
          (loadConf (.mk [("a", HostConf.mk "1" "" "")]
            [.mk [("a", HostConf.mk "2" "" ""), ("b", HostConf.mk "3" "" "")] [],
             .mk [("b", HostConf.mk "4" "" "")] []]))
          = some (HostConf.mk "1" "" "")
      ∧ List.lookup "b"
          (loadConf (.mk [("a", HostConf.mk "1" "" "")]
            [.mk [("a", HostConf.mk "2" "" ""), ("b", HostConf.mk "3" "" "")] [],
             .mk [("b", HostConf.mk "4" "" "")] []]))
          = some (HostConf.mk "3" "" "") := by
  refine ⟨by decide, ?_, ?_⟩
  · exact C5_first_write_wins.1 [("a", HostConf.mk "1" "" "")]
      [.mk [("a", HostConf.mk "2" "" ""), ("b", HostConf.mk "3" "" "")] [],
       .mk [("b", HostConf.mk "4" "" "")] []]
      "a" (HostConf.mk "1" "" "") (by decide)
  · exact C5_first_write_wins.2 [("a", HostConf.mk "1" "" "")]
      [] [.mk [("b", HostConf.mk "4" "" "")] []]
      (.mk [("a", HostConf.mk "2" "" ""), ("b", HostConf.mk "3" "" "")] [])
      "b" (HostConf.mk "3" "" "")
      (by decide)
      (fun d2 hd2 => absurd hd2 (List.not_mem_nil d2))
      (by decide)

/-- `getSSHCmdline(name, c)` from `main.go` lines 91–113.  The record is
fetched from the host map (a missing name yields Go's zero value, the
all-empty record); a non-empty `Hostname` overrides the connect
address; a non-empty `GatewayCommand` split on the space character
replaces the default `ssh -t` client invocation; with empty `Via` the
command is that invocation plus the address, otherwise it is always
`ssh -t <via>` plus the single argument
`Sprintf("%s %s", GatewayCommand, address)`. -/
def getSSHCmdline (name : String) (hosts : List (String × HostConf)) :
    List String :=
  let h := (List.lookup name hosts).getD ⟨"", "", ""⟩
  let addr := if h.Hostname ≠ "" then h.Hostname else name
  let ssh := if h.GatewayCommand ≠ "" then h.GatewayCommand.splitOn " "
             else ["ssh", "-t"]
  if h.Via = "" then ssh ++ [addr]
  else ["ssh", "-t"] ++ [h.Via] ++ [h.GatewayCommand ++ " " ++ addr]

example :
    getSSHCmdline "h" [("h", ⟨"", "", ""⟩)] = ["ssh", "-t", "h"] := by decide

example :
    getSSHCmdline "h" [("h", ⟨"bastion", "", "sshpass ssh"⟩)]
      = ["ssh", "-t", "bastion", "sshpass ssh h"] := by decide

/-- C6: for a host whose record has empty `Via`, the built command is
the base invocation — `GatewayCommand` split on the space character
when non-empty, the default `["ssh", "-t"]` otherwise — followed by the
effective connect address (`Hostname` when non-empty, the host's own
name otherwise) as one trailing argument; in particular an all-empty
record yields `["ssh", "-t", name]`. -/
theorem C6_direct_command (name : String) (hosts : List (String × HostConf))
    (h : HostConf)
    (hlk : List.lookup name hosts = some h)
    (hvia : h.Via = "") :
    getSSHCmdline name hosts
        = (if h.GatewayCommand ≠ "" then h.GatewayCommand.splitOn " "
           else ["ssh", "-t"])
          ++ [if h.Hostname ≠ "" then h.Hostname else name]
      ∧ (h.Hostname = "" → h.GatewayCommand = "" →
          getSSHCmdline name hosts = ["ssh", "-t", name]) := by
  constructor
  · unfold getSSHCmdline
    rw [hlk]
    simp only [Option.getD_some, if_pos hvia]
  · intro hhn hgc
    unfold getSSHCmdline
    rw [hlk]
    simp [hvia, hhn, hgc]

/-- C6 witness: instantiating the theorem at a concrete record. -/
theorem C6_direct_command_witness :
    List.lookup "h" [("h", HostConf.mk "" "db1" "")] = some (HostConf.mk "" "db1" "")
      ∧ HostConf.Via (HostConf.mk "" "db1" "") = ""
      ∧ getSSHCmdline "h" [("h", HostConf.mk "" "db1" "")] = ["ssh", "-t", "db1"] := by
  refine ⟨by decide, by decide, ?_⟩
  have hmain := (C6_direct_command "h" [("h", HostConf.mk "" "db1" "")]
    (HostConf.mk "" "db1" "") (by decide) (by decide)).1
  simpa using hmain

/-- C7: for a host whose record has non-empty `Via`, the built command
is exactly `["ssh", "-t", via, GatewayCommand ++ " " ++ address]` — the
default two-token invocation, never the split `GatewayCommand`, with
the gateway command and the effective address joined by one space as a
single trailing argument; when `GatewayCommand` is empty that argument
degenerates to a space followed by the address. -/
theorem C7_gateway_command (name : String) (hosts : List (String × HostConf))
    (h : HostConf)
    (hlk : List.lookup name hosts = some h)
    (hvia : h.Via ≠ "") :
    getSSHCmdline name hosts
        = ["ssh", "-t", h.Via,
            h.GatewayCommand ++ " " ++ (if h.Hostname ≠ "" then h.Hostname else name)]
      ∧ (h.GatewayCommand = "" →
          getSSHCmdline name hosts
            = ["ssh", "-t", h.Via,
                " " ++ (if h.Hostname ≠ "" then h.Hostname else name)]) := by
  constructor
  · unfold getSSHCmdline
    rw [hlk]
    simp only [Option.getD_some, if_neg hvia]
    rfl
  · intro hgc
    unfold getSSHCmdline
    rw [hlk]
    simp only [Option.getD_some, if_neg hvia, hgc]
    rfl

/-- C7 witness: instantiating the theorem at a concrete record,
including the empty-`GatewayCommand` leading-space shape. -/
theorem C7_gateway_command_witness :
    List.lookup "h" [("h", HostConf.mk "bastion" "" "sshpass -f x ssh")]
        = some (HostConf.mk "bastion" "" "sshpass -f x ssh")
      ∧ HostConf.Via (HostConf.mk "bastion" "" "sshpass -f x ssh") ≠ ""
      ∧ getSSHCmdline "h" [("h", HostConf.mk "bastion" "" "sshpass -f x ssh")]
          = ["ssh", "-t", "bastion", "sshpass -f x ssh h"]
      ∧ getSSHCmdline "g" [("g", HostConf.mk "bastion" "" "")]
          = ["ssh", "-t", "bastion", " g"] := by
  refine ⟨by decide, by decide, ?_, ?_⟩
  · have hmain := (C7_gateway_command "h"
      [("h", HostConf.mk "bastion" "" "sshpass -f x ssh")]
      (HostConf.mk "bastion" "" "sshpass -f x ssh") (by decide) (by decide)).1
    simpa using hmain
  · have hempty := (C7_gateway_command "g"
      [("g", HostConf.mk "bastion" "" "")]
      (HostConf.mk "bastion" "" "") (by decide) (by decide)).2 (by decide)
    simpa using hempty

/-- `askyn()` from `main.go` lines 127–139: one byte is read from the
interactive input; a read error (`none`) answers no; only `'y'` and
`'Y'` answer yes. -/
def askyn (input : Option Char) : Bool :=
  match input with
  | none => false
  | some b => b = 'y' || b = 'Y'

/-- Outcome of the launch phase of `main` (`main.go` lines 211–232). -/
inductive RunOutcome where
  /-- `opts.Dryrun`: the target list was printed and `main` returned. -/
  | dryrun
  /-- `logrus.Fatal("Can't open multipe hosts...")`. -/
  | fatalMultiple
  /-- `logrus.Fatal("Interrupted")` after a declined confirmation. -/
  | interrupted
  /-- The launch loop ran: these are the commands built (by
  `getSSHCmdline`, in order) and handed to `tmux`/`ssh`. -/
  | launched (cmds : List (List String))
  deriving DecidableEq

/-- The launch phase of `main` (`main.go` lines 211–232), after the
sorted target list has been printed: dry-run returns; more than one
target without tmux mode is fatal; more than two targets without `-y`
asks `askyn` and a negative answer is fatal; only then does the loop
build and launch one command per target. -/
def launchPhase (hosts : List String) (c : List (String × HostConf))
    (useTmux yes dryrun : Bool) (input : Option Char) : RunOutcome :=
  if dryrun then .dryrun
  else if !useTmux && decide (hosts.length > 1) then .fatalMultiple
  else if decide (hosts.length > 2) && !yes then
    if askyn input then .launched (hosts.map (fun h => getSSHCmdline h c))
    else .interrupted
  else .launched (hosts.map (fun h => getSSHCmdline h c))

/-- C8: with more than one resolved target and tmux mode not requested,
the run aborts fatally before any command is built; with more than two
targets, no `-y`, and tmux mode requested (the earlier guard passing),
one character is read and any answer other than `'y'`/`'Y'` — or a
failed read — aborts before any command is built; and even without
tmux mode such a run never reaches the launch loop. -/
theorem C8_guards (hosts : List String) (c : List (String × HostConf))
    (useTmux yes : Bool) (input : Option Char) :
    (useTmux = false → hosts.length > 1 →
        launchPhase hosts c useTmux yes false input = .fatalMultiple)
      ∧ (useTmux = true → hosts.length > 2 → yes = false → askyn input = false →
          launchPhase hosts c useTmux yes false input = .interrupted)
      ∧ (hosts.length > 2 → yes = false → askyn input = false →
          ∀ cmds, launchPhase hosts c useTmux yes false input ≠ .launched cmds) := by
  refine ⟨?_, ?_, ?_⟩
  · intro ht hlen
    subst ht
    simp [launchPhase, hlen]
  · intro ht hlen hy ha
    subst ht
    subst hy
    simp [launchPhase, hlen, ha, Nat.lt_of_succ_lt hlen]
  · intro hlen hy ha cmds
    subst hy
    cases useTmux with
    | false =>
      have hlen1 : hosts.length > 1 := Nat.lt_of_succ_lt hlen
      simp [launchPhase, hlen1]
    | true => simp [launchPhase, hlen, ha]

/-- C8 witness: three targets, no `-y`, answer `'n'`: fatal without
tmux, interrupted with tmux, never launched either way. -/
theorem C8_guards_witness :
    launchPhase ["a", "b", "c"] [] false false false (some 'n')
        = RunOutcome.fatalMultiple
      ∧ launchPhase ["a", "b", "c"] [] true false false (some 'n')
        = RunOutcome.interrupted
      ∧ ∀ cmds, launchPhase ["a", "b", "c"] [] true false false (some 'n')
          ≠ RunOutcome.launched cmds := by
  refine ⟨?_, ?_, ?_⟩
  · exact (C8_guards ["a", "b", "c"] [] false false (some 'n')).1
      rfl (by decide)
  · exact (C8_guards ["a", "b", "c"] [] true false (some 'n')).2.1
      rfl (by decide) rfl (by decide)
  · exact (C8_guards ["a", "b", "c"] [] true false (some 'n')).2.2
      (by decide) rfl (by decide)

/-- C9: `filter` compiles the pattern with `regexp.MustCompile` before
the loop, in both matching modes — an invalid pattern panics (aborts
the run) even in literal mode; and when the pattern compiles,
literal-mode membership is exact string equality (after the `_`
exclusion). -/
theorem C9_literal_mode (valid : String → Bool) (m : String → String → Bool)
    (elems : List String) (f : String) :
    (valid f = false →
        filter valid m elems f false = none ∧ filter valid m elems f true = none)
      ∧ (valid f = true → ∀ l, filter valid m elems f false = some l →
          ∀ k, k ∈ l ↔ (k ∈ elems ∧ strHasPrefix k "_" = false ∧ k = f)) := by
  constructor
  · intro hv
    constructor <;> simp [filter, hv]
  · intro hv l hl k
    unfold filter at hl
    rw [if_pos hv] at hl
    injection hl with hl
    subst hl
    constructor
    · intro hk
      have hm := List.mem_filter.mp hk
      have hb := hm.2
      simp only [Bool.and_eq_true, Bool.not_eq_true', if_neg] at hb
      refine ⟨hm.1, hb.1, ?_⟩
      have := hb.2
      simp only [Bool.ite_eq_true_distrib, if_false] at this
      exact (eq_of_beq this).symm
    · rintro ⟨hmem, hpre, rfl⟩
      refine List.mem_filter.mpr ⟨hmem, ?_⟩
      simp [hpre]

/-- C9 witness: an invalid pattern aborts in literal mode; a valid
literal pattern selects exactly the equal name. -/
theorem C9_literal_mode_witness :
    filter (fun _ => false) (fun _ _ => true) ["a"] "(" false = none
      ∧ ("a" ∈ (["a"] : List String)
          ↔ ("a" ∈ (["a"] : List String) ∧ strHasPrefix "a" "_" = false
              ∧ "a" = "a")) := by
  constructor
  · exact ((C9_literal_mode (fun _ => false) (fun _ _ => true) ["a"] "(").1
      rfl).1
  · exact (C9_literal_mode (fun _ => true) (fun _ _ => true) ["a"] "a").2
      rfl ["a"] (by decide) "a"

/-- `strings.Replace(s, old, new, 1)`: replace the first occurrence of
`old` in `s` by `new`.  Paths are modelled as their character lists
(`expandHomeDir` indexes bytes in Go; the paths of interest are
ASCII). -/
def replaceFirst (s old new : List Char) : List Char :=
  match s with
  | [] => []
  | c :: cs =>
    if old.isPrefixOf (c :: cs) then new ++ (c :: cs).drop old.length
    else c :: replaceFirst cs old new

/-- `expandHomeDir(path)` from `main.go` lines 31–38: `dir` is the home
directory plus `"/"`; `path[:2]` panics (modelled as `none`) when the
path has fewer than two characters; otherwise a leading `"~/"` makes
`strings.Replace(path, "~/", dir, 1)` run, and the path is returned. -/
def expandHomeDir (home path : List Char) : Option (List Char) :=
  if path.length < 2 then none
  else if path.take 2 = ['~', '/'] then
    some (replaceFirst path ['~', '/'] (home ++ ['/']))
  else
    some path

/-- Outcome of the entry of `loadConf` (`main.go` lines 39–43). -/
inductive ReadOutcome where
  /-- The process panicked inside `expandHomeDir` (slice out of range). -/
  | panicked
  /-- `ioutil.ReadFile` failed and the error was returned (ConfigError). -/
  | configError
  /-- The file was read; its contents are handed to the YAML decoder. -/
  | ok (contents : List Char)
  deriving DecidableEq

/-- The read step of `loadConf` (`main.go` lines 39–43):
`ioutil.ReadFile(expandHomeDir(path))`, with `readFile` abstracting the
file system (`none` = read error).  The `path[:2]` panic in
`expandHomeDir` happens before the read and is a process panic, not a
returned error. -/
def loadConfRead (home : List Char) (readFile : List Char → Option (List Char))
    (path : List Char) : ReadOutcome :=
  match expandHomeDir home path with
  | none => .panicked
  | some p =>
    match readFile p with
    | none => .configError
    | some b => .ok b

/-- C10: a path of fewer than two characters (for example the empty
path) makes the load panic in `expandHomeDir` rather than return a
ConfigError; for every path of length at least two the expansion is
total, rewriting a leading `"~/"` to the home directory plus `"/"` and
leaving every other path unchanged. -/
theorem C10_expandHomeDir (home path : List Char)
    (readFile : List Char → Option (List Char)) :
    (path.length < 2 → loadConfRead home readFile path = .panicked)
      ∧ (2 ≤ path.length →
          expandHomeDir home path
            = some (if path.take 2 = ['~', '/']
                then (home ++ ['/']) ++ path.drop 2
                else path)) := by
  constructor
  · intro hshort
    unfold loadConfRead expandHomeDir
    rw [if_pos hshort]
  · intro hlong
    unfold expandHomeDir
    rw [if_neg (by omega)]
    by_cases hpre : path.take 2 = ['~', '/']
    · rw [if_pos hpre, if_pos hpre]
      cases path with
      | nil => simp at hlong
      | cons c1 t =>
        cases t with
        | nil => simp at hlong
        | cons c2 rest =>
          simp only [List.take, List.cons.injEq, List.take_nil] at hpre
          obtain ⟨h1, h2, -⟩ := hpre
          subst h1
          subst h2
          rw [replaceFirst, if_pos (by simp [List.isPrefixOf])]
          rfl
    · rw [if_neg hpre, if_neg hpre]

/-- C10 witness: the empty path panics; `"~/x"` expands to the home
directory plus `"/x"`. -/
theorem C10_expandHomeDir_witness :
    (([] : List Char).length < 2
        ∧ loadConfRead ['h'] (fun _ => none) [] = ReadOutcome.panicked)
      ∧ (2 ≤ (['~', '/', 'x'] : List Char).length
          ∧ expandHomeDir ['h'] ['~', '/', 'x']
              = some (if (['~', '/', 'x'] : List Char).take 2 = ['~', '/']
                  then (['h'] ++ ['/']) ++ (['~', '/', 'x'] : List Char).drop 2
                  else ['~', '/', 'x'])) := by
  refine ⟨⟨by decide, ?_⟩, ⟨by decide, ?_⟩⟩
  · exact (C10_expandHomeDir ['h'] [] (fun _ => none)).1 (by decide)
  · exact (C10_expandHomeDir ['h'] ['~', '/', 'x'] (fun _ => none)).2 (by decide)
